import Mathlib

/-!
Shallow embedding of the retrieval-and-answer pipeline implemented in
`src/app.py` (a Streamlit chat application), together with proofs about
the claims of its specification.

Text is modelled as `List Char`.  Python builtin behaviour that the script
relies on (`str.split()`, `str.join`, `str.lower`, the `in` substring
operator, list slicing, `range`) is embedded faithfully below.  External
libraries (`sklearn`'s TF-IDF + cosine-similarity scoring, `requests`,
`langdetect`, `deep_translator`) are modelled as parameters: fallible
functions returning `Except`, mirroring Python calls that may raise.
-/

namespace ChatbotApp

/-- Texts are lists of characters. -/
abbrev Str := List Char

/-- Convenience conversion from Lean string literals. -/
def str (s : String) : Str := s.toList

/-- Accumulator-based helper for Python `str.split()`: splits on runs of
whitespace, discarding empty pieces.  `acc` holds the characters of the
word currently being read, in reverse. -/
def pySplitAux : List Char → List Char → List (List Char)
  | [], acc => if acc.isEmpty then [] else [acc.reverse]
  | c :: cs, acc =>
    if c.isWhitespace then
      if acc.isEmpty then pySplitAux cs [] else acc.reverse :: pySplitAux cs []
    else pySplitAux cs (c :: acc)

/-- Models Python `text.split()` (no separator argument): the list of
maximal whitespace-free nonempty runs of `text`. -/
def pySplit (text : Str) : List Str := pySplitAux text []

/-- Models Python `sep.join(pieces)`. -/
def pyJoin (sep : Str) : List Str → Str
  | [] => []
  | [w] => w
  | w :: ws => w ++ sep ++ pyJoin sep ws

/-- Normalisation of a Python slice index against a list of length `len`:
negative indices count from the end (clamped at 0), positive ones are
clamped at `len`. -/
def pyIdx (len : Nat) (i : Int) : Nat :=
  if i < 0 then ((len : Int) + i).toNat else min i.toNat len

/-- Models the Python slice `l[a:b]`. -/
def pySlice {α : Type} (l : List α) (a b : Int) : List α :=
  (l.take (pyIdx l.length b)).drop (pyIdx l.length a)

/-- Models Python `range(0, n, step)` for a positive step: the starts
`0, step, 2*step, ...` below `n`. -/
def pyRangePos (n step : Nat) : List Nat :=
  List.range' 0 ((n + step - 1) / step) step

/-- Embedding of `chunk_text(text, chunk_size, overlap)` from `src/app.py`
(lines 140-145).  The Python loop is
`for i in range(0, len(words), chunk_size - overlap)`, appending
`" ".join(words[i:i + chunk_size])`.  A zero step makes `range` raise
`ValueError`; a negative step makes `range(0, len(words), step)` empty, so
the function silently returns `[]`. -/
def chunk_text (text : Str) (chunk_size overlap : Int) : Except Str (List Str) :=
  let words := pySplit text
  let step : Int := chunk_size - overlap
  if step = 0 then .error (str "ValueError: range() arg 3 must not be zero")
  else if step < 0 then .ok []
  else .ok ((pyRangePos words.length step.toNat).map
      (fun (i : Nat) => pyJoin [' '] (pySlice words (i : Int) ((i : Int) + chunk_size))))

/-- Models Python `str.lower()` (character-wise lowercasing). -/
def pyLower (s : Str) : Str := s.map Char.toLower

/-- Helper for the Python `in` operator on strings: whether `n` is an
initial segment of `h`. -/
def isPrefixB : Str → Str → Bool
  | [], _ => true
  | _ :: _, [] => false
  | a :: as, b :: bs => a == b && isPrefixB as bs

/-- Models the Python substring test `n in h`. -/
def isSubstrB : Str → Str → Bool
  | n, [] => isPrefixB n []
  | n, c :: t => isPrefixB n (c :: t) || isSubstrB n t

/-- The per-chunk keyword test of `get_relevant_chunks_smart`
(`src/app.py` line 157): `any(word.lower() in doc.lower() for word in
query.split())`. -/
def matchesAnyWord (query doc : Str) : Bool :=
  (pySplit query).any (fun word => isSubstrB (pyLower word) (pyLower doc))

/-- Model of the external scoring backend used by
`get_relevant_chunks_tfidf`: the composite of
`TfidfVectorizer().fit(docs + [query])`, `transform`, and
`cosine_similarity(vectors[-1], vectors[:-1])[0]` from sklearn.  Given the
query and the chunk list it either raises (`.error`, as sklearn does e.g.
on an empty sample matrix or an empty vocabulary) or returns one cosine
score per chunk. -/
def ScoreFn : Type := Str → List Str → Except Str (List ℚ)

/-- A scoring backend is well formed when a successful call returns
exactly one score per chunk. -/
def WFScore (f : ScoreFn) : Prop :=
  ∀ q docs sims, f q docs = .ok sims → sims.length = docs.length

/-- Score of index `i` in a similarity vector (0 out of range; in-range
indices are all that ever occur). -/
def sVal (sims : List ℚ) (i : Nat) : ℚ := sims.getD i 0

/-- The comparison `numpy.argsort` sorts by, modelled as stable: ascending
score, original index as tie-break. -/
def keyLe (sims : List ℚ) (i j : Nat) : Prop :=
  sVal sims i < sVal sims j ∨ (sVal sims i = sVal sims j ∧ i ≤ j)

instance keyLe.decRel (sims : List ℚ) : DecidableRel (keyLe sims) :=
  fun _ _ => inferInstanceAs (Decidable (_ ∨ _))

/-- Models `sims.argsort()`: the indices `0, ..., len-1` sorted by
ascending score, equal scores keeping ascending index order (numpy's
stable behaviour). -/
def argsortStable (sims : List ℚ) : List Nat :=
  (List.range sims.length).insertionSort (keyLe sims)

/-- Models the Python slice `l[-k:]`.  For `k ≥ 1` this is the last
`min k len` elements; for `k = 0` it is `l[-0:] = l[0:]`, the whole
list. -/
def pyTailSlice {α : Type} (k : Nat) (l : List α) : List α :=
  if k = 0 then l else l.drop (l.length - k)

/-- The index selection `sims.argsort()[-k:][::-1]` of
`get_relevant_chunks_tfidf` (`src/app.py` line 152). -/
def tfidf_top_k (sims : List ℚ) (k : Nat) : List Nat :=
  (pyTailSlice k (argsortStable sims)).reverse

/-- Embedding of `get_relevant_chunks_tfidf(query, docs, k)` from
`src/app.py` (lines 148-153), parameterised by the sklearn scoring
backend.  An exception from the backend propagates (the function has no
handler). -/
def get_relevant_chunks_tfidf (score : ScoreFn) (query : Str)
    (docs : List Str) (k : Nat) : Except Str (List Str) :=
  match score query docs with
  | .error e => .error e
  | .ok sims => .ok ((tfidf_top_k sims k).map (fun i => docs.getD i []))

/-- Embedding of `get_relevant_chunks_smart(query, docs, k)` from
`src/app.py` (lines 156-160): keyword-substring filter in original order
truncated to `k`, falling back to the TF-IDF ranker when no chunk
matches. -/
def get_relevant_chunks_smart (score : ScoreFn) (query : Str)
    (docs : List Str) (k : Nat) : Except Str (List Str) :=
  let keyword_matches := docs.filter (fun doc => matchesAnyWord query doc)
  if keyword_matches.isEmpty then get_relevant_chunks_tfidf score query docs k
  else .ok (keyword_matches.take k)

/-- A concrete scoring backend with sklearn's empty-input behaviour:
`cosine_similarity` raises `ValueError` on a zero-sample matrix, and a
query sharing no vocabulary with anything scores 0 against every chunk
(here: every score is 0). -/
def zeroScore : ScoreFn := fun _ docs =>
  if docs.isEmpty then
    .error (str "ValueError: Found array with 0 sample(s) while a minimum of 1 is required")
  else .ok (docs.map (fun _ => (0 : ℚ)))

/-- The `['ur', 'hi']` list of `translate_to_english` (`src/app.py`
line 126). -/
def needsTranslation : List Str := [str "ur", str "hi"]

/-- Embedding of `translate_to_english(text)` from `src/app.py`
(lines 123-130), parameterised by the external `langdetect.detect` and
`deep_translator.GoogleTranslator(...).translate` calls, each of which may
raise (`.error`).  The bare `except` returns the original text on any
failure, so the function itself is total. -/
def translate_to_english (detect translate : Str → Except Str Str)
    (text : Str) : Str :=
  match detect text with
  | .error _ => text
  | .ok detected_lang =>
    if detected_lang ∈ needsTranslation then
      match translate text with
      | .ok t => t
      | .error _ => text
    else text

/-- JSON values, the possible results of `response.json()`. -/
inductive Json : Type where
  | null : Json
  | bool (b : Bool) : Json
  | num (q : ℚ) : Json
  | jstr (s : Str) : Json
  | arr (elts : List Json) : Json
  | obj (fields : List (Str × Json)) : Json

/-- Python subscript `j[key]` for a string key: field lookup on a dict,
`TypeError`/`KeyError` otherwise, as raised by the interpreter. -/
def jsonGet (j : Json) (key : Str) : Except Str Json :=
  match j with
  | .obj fields =>
    match fields.find? (fun kv => kv.1 == key) with
    | some kv => .ok kv.2
    | none => .error (str "KeyError")
  | .jstr _ => .error (str "TypeError: string indices must be integers")
  | .arr _ => .error (str "TypeError: list indices must be integers or slices, not str")
  | _ => .error (str "TypeError: object is not subscriptable")

/-- Python subscript `j[0]`: head of a list, first character of a string,
`KeyError`/`IndexError`/`TypeError` otherwise, as raised by the
interpreter. -/
def jsonIdx0 (j : Json) : Except Str Json :=
  match j with
  | .arr (x :: _) => .ok x
  | .arr [] => .error (str "IndexError: list index out of range")
  | .jstr (c :: _) => .ok (.jstr [c])
  | .jstr [] => .error (str "IndexError: string index out of range")
  | .obj _ => .error (str "KeyError: 0")
  | _ => .error (str "TypeError: object is not subscriptable")

/-- The extraction `response.json()['choices'][0]['message']['content']`
(`src/app.py` line 199), with the first failing subscript raising. -/
def extract_content (j : Json) : Except Str Json := do
  let choices ← jsonGet j (str "choices")
  let first ← jsonIdx0 choices
  let message ← jsonGet first (str "message")
  jsonGet message (str "content")

/-- Model of `requests.post(...)` followed by `response.json()`: either the
post itself raises (`.error`, e.g. a network failure), or it yields an
HTTP status code together with the outcome of parsing the body as JSON.
`requests` does not raise on non-2xx statuses. -/
def PostFn : Type := Str → Except Str (Int × Except Str Json)

/-- The Python f-string `f"Error: {e}"` applied to a caught exception
(`src/app.py` line 201). -/
def strERR (e : Str) : Str := str "Error: " ++ e

/-- Embedding of the `try`/`except` block of `generate_response`
(`src/app.py` lines 197-201): post the prompt, parse the body, extract
`choices[0].message.content`; any exception in the block is caught and
turned into the value `f"Error: {e}"`.  The HTTP status code is never
inspected.  The block's value is the extracted content (an arbitrary JSON
value) on success, or the error string. -/
def call_completion (post : PostFn) (prompt : Str) : Json :=
  match post prompt with
  | .error e => .jstr (strERR e)
  | .ok (_status, .error e) => .jstr (strERR e)
  | .ok (_status, .ok body) =>
    match extract_content body with
    | .error e => .jstr (strERR e)
    | .ok content => content

/-- The prompt f-string of `generate_response` (`src/app.py`
lines 168-182), with the context block and query spliced in. -/
def promptTemplate (context query : Str) : Str :=
  str "You are a highly intelligent CRM assistant. Use the following document context to answer the customer\x27s question precisely. \n\nContext:\n\x22\x22\x22\n"
    ++ context
    ++ str "\n\x22\x22\x22\n\nQuestion: "
    ++ query
    ++ str "\n\nInstructions:\n- Provide a short, clear, professional response (2-4 sentences).\n- Answer **only** from the above context.\n- Do **not** mention the document or repeat the question.\n\nAnswer:"

/-- Embedding of `generate_response(query)` from `src/app.py`
(lines 163-201), parameterised by the external scoring backend, the HTTP
post, and the detection/translation calls; `documents` stands for
`st.session_state.documents`.  Only the post-and-parse step is inside a
`try`; an exception from the ranking step (line 165) propagates to the
caller as `.error`. -/
def generate_response (score : ScoreFn) (post : PostFn)
    (detect translate : Str → Except Str Str)
    (documents : List Str) (query : Str) : Except Str Json :=
  let query := translate_to_english detect translate query
  match get_relevant_chunks_smart score query documents 3 with
  | .error e => .error e
  | .ok context_chunks =>
    let context := pyJoin ['\n'] context_chunks
    let prompt := promptTemplate context query
    .ok (call_completion post prompt)

/-- The keyword arguments of the `requests.post` call of
`generate_response` (`src/app.py` line 198): only `headers` and `json` are
passed, so the `timeout` parameter keeps the `requests` default of
`None` — no bound at all. -/
structure RequestsPostCall : Type where
  url : Str
  timeout : Option ℚ

/-- The single completion-service call site of `src/app.py` (line 198). -/
def groq_post_call : RequestsPostCall :=
  { url := str "https://api.groq.com/openai/v1/chat/completions"
    timeout := none }

/-- The concrete backend `zeroScore` is well formed. -/
theorem wf_zeroScore : WFScore zeroScore := by
  intro q docs sims h
  unfold zeroScore at h
  by_cases hd : docs.isEmpty
  · simp [hd] at h
  · simp [hd] at h
    simp [← h]

/-- Claim C3 as stated: every configuration with `overlap >= chunk_size`
makes `chunk_text` fail. -/
def ClaimC3 : Prop :=
  ∀ (text : Str) (chunk_size overlap : Int), chunk_size ≤ overlap →
    ∃ e, chunk_text text chunk_size overlap = .error e

/-- C3 counterexample: with `chunk_size = 1`, `overlap = 2` the step of the
Python `range` is negative, the loop body never runs, and `chunk_text`
silently returns the empty list instead of failing. -/
theorem C3_counterexample :
    chunk_text (str "a b c") 1 2 = .ok [] ∧ ¬ ClaimC3 := by
  refine ⟨by rfl, fun h => ?_⟩
  obtain ⟨e, he⟩ := h (str "a b c") 1 2 (by norm_num)
  rw [show chunk_text (str "a b c") 1 2 = .ok [] from rfl] at he
  exact Except.noConfusion he

/-- C3 amended: `chunk_text` raises only in the boundary case
`overlap = chunk_size` (a `ValueError` from the zero `range` step, not a
`ConfigurationError`); for `overlap > chunk_size` it silently returns the
empty list. -/
theorem C3_amended : ∀ (text : Str) (chunk_size overlap : Int),
    (overlap = chunk_size →
      chunk_text text chunk_size overlap =
        .error (str "ValueError: range() arg 3 must not be zero")) ∧
    (chunk_size < overlap → chunk_text text chunk_size overlap = .ok []) := by
  intro text cs ov
  constructor
  · intro h
    subst h
    simp [chunk_text]
  · intro h
    have h0 : ¬ (cs - ov = 0) := by omega
    have h1 : cs - ov < 0 := by omega
    simp [chunk_text, h0, h1]

/-- C3 amended witness at concrete inputs. -/
theorem C3_amended_witness :
    chunk_text (str "x y") 2 2 =
        .error (str "ValueError: range() arg 3 must not be zero") ∧
      chunk_text (str "x y") 1 2 = .ok [] :=
  ⟨(C3_amended (str "x y") 2 2).1 rfl, (C3_amended (str "x y") 1 2).2 (by norm_num)⟩

/-- Claim C8 as stated: the completion request is issued with an explicit
bounded timeout. -/
def ClaimC8 : Prop := ∃ t : ℚ, groq_post_call.timeout = some t

/-- C8 counterexample: the `requests.post` call at `src/app.py` line 198
passes no `timeout` keyword, so the `requests` default of `None` (no bound
at all) applies. -/
theorem C8_counterexample : ¬ ClaimC8 := by
  rintro ⟨t, ht⟩
  rw [show groq_post_call.timeout = none from rfl] at ht
  exact Option.noConfusion ht

/-- C8 amended: the completion request is issued with no timeout (the
`requests` default `None`), so the call may block indefinitely; an
exception raised by the call is still converted to a generation-failure
string rather than propagated. -/
theorem C8_amended :
    groq_post_call.timeout = none ∧
      ∀ (post : PostFn) (prompt e : Str), post prompt = .error e →
        call_completion post prompt = .jstr (strERR e) := by
  refine ⟨rfl, fun post prompt e h => ?_⟩
  simp [call_completion, h]

/-- C8 amended witness at concrete inputs. -/
theorem C8_amended_witness :
    call_completion (fun _ => .error (str "ReadTimeout")) (str "p") =
      .jstr (strERR (str "ReadTimeout")) :=
  C8_amended.2 (fun _ => .error (str "ReadTimeout")) (str "p") (str "ReadTimeout") rfl

/-- Claim C9: `translate_to_english` invokes the external translation call
only when the detected language is in `['ur', 'hi']`; any error of
detection or translation yields the original text; and a successful
translation of an `['ur', 'hi']` text is returned.  The function is total
(never raises) by its type. -/
theorem C9_translate_spec :
    ∀ (detect translate : Str → Except Str Str) (text : Str),
    (∀ e, detect text = .error e →
      translate_to_english detect translate text = text) ∧
    (∀ lang, detect text = .ok lang → lang ∉ needsTranslation →
      ∀ translate2, translate_to_english detect translate2 text = text) ∧
    (∀ lang e, detect text = .ok lang → lang ∈ needsTranslation →
      translate text = .error e →
      translate_to_english detect translate text = text) ∧
    (∀ lang t, detect text = .ok lang → lang ∈ needsTranslation →
      translate text = .ok t →
      translate_to_english detect translate text = t) := by
  intro detect translate text
  refine ⟨fun e he => ?_, fun lang hl hmem translate2 => ?_,
    fun lang e hl hmem he => ?_, fun lang t hl hmem ht => ?_⟩
  · simp [translate_to_english, he]
  · simp [translate_to_english, hl, hmem]
  · simp [translate_to_english, hl, hmem, he]
  · simp [translate_to_english, hl, hmem, ht]

/-- C9 witness at concrete oracles: an Urdu-detected text is sent to the
translator and its output returned; an error-raising detector leaves the
text unchanged. -/
theorem C9_translate_spec_witness :
    translate_to_english (fun _ => .ok (str "ur")) (fun _ => .ok (str "hello"))
        (str "salam") = str "hello" ∧
      translate_to_english (fun _ => .error (str "LangDetectException"))
        (fun _ => .ok (str "hello")) (str "zz") = str "zz" :=
  ⟨(C9_translate_spec (fun _ => .ok (str "ur")) (fun _ => .ok (str "hello"))
      (str "salam")).2.2.2 (str "ur") (str "hello") rfl (by decide) rfl,
    (C9_translate_spec (fun _ => .error (str "LangDetectException"))
      (fun _ => .ok (str "hello")) (str "zz")).1 (str "LangDetectException") rfl⟩

/-- Claim C4: the hybrid strategy returns, in original order and truncated
to `k`, exactly the chunks containing some whitespace-separated query word
as a case-insensitive substring; with no match it returns the sparse
result; and on the spec's concrete example it returns `["refund policy"]`
for any scoring backend. -/
theorem C4_smart_spec :
    ∀ (score : ScoreFn) (query : Str) (docs : List Str) (k : Nat),
    docs ≠ [] →
    ((docs.filter (fun d => matchesAnyWord query d)) ≠ [] →
      get_relevant_chunks_smart score query docs k =
        .ok ((docs.filter (fun d => matchesAnyWord query d)).take k)) ∧
    ((docs.filter (fun d => matchesAnyWord query d)) = [] →
      get_relevant_chunks_smart score query docs k =
        get_relevant_chunks_tfidf score query docs k) ∧
    get_relevant_chunks_smart score (str "refund")
        [str "order tracking info", str "refund policy", str "careers page"] 3 =
      .ok [str "refund policy"] := by
  intro score query docs k _
  refine ⟨fun h => ?_, fun h => ?_, ?_⟩
  · simp only [get_relevant_chunks_smart, List.isEmpty_iff]
    rw [if_neg h]
  · simp only [get_relevant_chunks_smart, List.isEmpty_iff]
    rw [if_pos h]
  · rfl

/-- C4 witness at concrete inputs. -/
theorem C4_smart_spec_witness :
    get_relevant_chunks_smart zeroScore (str "refund")
        [str "order tracking info", str "refund policy", str "careers page"] 3 =
      .ok [str "refund policy"] :=
  (C4_smart_spec zeroScore (str "refund")
    [str "order tracking info", str "refund policy", str "careers page"] 3
    (by simp)).2.2

/-- Taking `k` of a filtered list equals taking `k` of the original when
the first `k` elements all pass the filter. -/
theorem filter_take_of_all {α : Type} (p : α → Bool) :
    ∀ (l : List α) (k : Nat), (∀ d ∈ l.take k, p d = true) →
      (l.filter p).take k = l.take k := by
  intro l
  induction l with
  | nil => intro k _; simp
  | cons x xs ih =>
    intro k hk
    cases k with
    | zero => simp
    | succ k =>
      have hx : p x = true := hk x (by simp)
      have hxs : ∀ d ∈ xs.take k, p d = true := by
        intro d hd
        exact hk d (by simp [hd])
      simp [List.filter_cons, hx, ih k hxs]

/-- Claim C10: when each of the first `k` chunks contains a query word as a
case-insensitive substring, the hybrid ranker returns exactly the first
`k` chunks in document order; the result is the same for every scoring
backend, so TF-IDF similarity is never consulted. -/
theorem C10_smart_first_k :
    ∀ (score : ScoreFn) (query : Str) (docs : List Str) (k : Nat),
    0 < k → docs ≠ [] →
    (∀ d ∈ docs.take k, matchesAnyWord query d = true) →
    get_relevant_chunks_smart score query docs k = .ok (docs.take k) := by
  intro score query docs k hk hne hall
  have hfilter : (docs.filter (fun d => matchesAnyWord query d)).take k = docs.take k :=
    filter_take_of_all _ docs k hall
  obtain ⟨d0, rest, rfl⟩ := List.exists_cons_of_ne_nil hne
  have hd0 : matchesAnyWord query d0 = true := by
    apply hall
    cases k with
    | zero => omega
    | succ k => simp
  have hne' : (d0 :: rest).filter (fun d => matchesAnyWord query d) ≠ [] := by
    simp [List.filter_cons, hd0]
  simp only [get_relevant_chunks_smart, List.isEmpty_iff]
  rw [if_neg hne', hfilter]

/-- C10 witness at concrete inputs. -/
theorem C10_smart_first_k_witness :
    get_relevant_chunks_smart zeroScore (str "a")
        [str "cat", str "dog"] 1 = .ok [str "cat"] :=
  C10_smart_first_k zeroScore (str "a") [str "cat", str "dog"] 1
    (by norm_num) (by simp) (by decide)

/-- A string is a prefix of itself followed by anything. -/
theorem isPrefixB_append : ∀ (p r : Str), isPrefixB p (p ++ r) = true := by
  intro p
  induction p with
  | nil => intro r; rfl
  | cons c cs ih => intro r; simp [isPrefixB, ih]

/-- HTTP statuses counting as success in the spec's sense. -/
def is2xx (status : Int) : Prop := 200 ≤ status ∧ status < 300

/-- Failure modes of the completion call named by claim C7: a raised
network exception, a non-2xx status, an unparsable body, or a body lacking
the `choices[0].message.content` shape. -/
def FailedCall (post : PostFn) (prompt : Str) : Prop :=
  (∃ e, post prompt = .error e) ∨
  (∃ status body, post prompt = .ok (status, body) ∧ ¬ is2xx status) ∨
  (∃ status e, post prompt = .ok (status, .error e)) ∨
  (∃ status body e, post prompt = .ok (status, .ok body) ∧
    extract_content body = .error e)

/-- Claim C7 as stated: every modelled failure of the completion call
yields an answer string containing an error indicator. -/
def ClaimC7 : Prop :=
  ∀ (post : PostFn) (prompt : Str), FailedCall post prompt →
    ∃ s, call_completion post prompt = .jstr s ∧ isSubstrB (str "Error") s = true

/-- A well-shaped completion response body whose answer text is "oops". -/
def goodBody : Json :=
  .obj [(str "choices", .arr [.obj [(str "message",
    .obj [(str "content", .jstr (str "oops"))])]])]

/-- A completion backend answering HTTP 500 with a well-shaped body. -/
def post500ok : PostFn := fun _ => .ok (500, .ok goodBody)

/-- C7 counterexample: the code never inspects the HTTP status, so a 500
response carrying a well-shaped body is returned as a normal answer with
no error indicator, although it is one of the claim's failure modes. -/
theorem C7_counterexample : ¬ ClaimC7 := by
  intro h
  obtain ⟨s, hs, hsub⟩ := h post500ok (str "p")
    (Or.inr (Or.inl ⟨500, .ok goodBody, rfl, by norm_num [is2xx]⟩))
  rw [show call_completion post500ok (str "p") = .jstr (str "oops") from rfl] at hs
  cases hs
  exact absurd hsub (by decide)

/-- C7 amended: a raised post exception, a JSON-parse failure, and a body
lacking the `choices[0].message.content` shape each produce the string
`"Error: ..."` (carrying the error indicator), and `call_completion` is
total, so nothing propagates; the HTTP status, however, is never
inspected, so a non-2xx response with a well-shaped body is returned as a
normal answer. -/
theorem C7_amended :
    (∀ e, isPrefixB (str "Error: ") (strERR e) = true) ∧
    ∀ (post : PostFn) (prompt : Str),
    (∀ e, post prompt = .error e →
      call_completion post prompt = .jstr (strERR e)) ∧
    (∀ status e, post prompt = .ok (status, .error e) →
      call_completion post prompt = .jstr (strERR e)) ∧
    (∀ status body e, post prompt = .ok (status, .ok body) →
      extract_content body = .error e →
      call_completion post prompt = .jstr (strERR e)) ∧
    (∀ status status2 (body : Except Str Json) (prompt2 : Str),
      call_completion (fun _ => .ok (status, body)) prompt2 =
        call_completion (fun _ => .ok (status2, body)) prompt2) := by
  refine ⟨fun e => isPrefixB_append _ _, fun post prompt => ⟨fun e h => ?_,
    fun status e h => ?_, fun status body e h hx => ?_,
    fun status status2 body prompt2 => ?_⟩⟩
  · simp [call_completion, h]
  · simp [call_completion, h]
  · simp [call_completion, h, hx]
  · cases body with
    | error e => rfl
    | ok j => simp [call_completion]

/-- C7 amended witness at concrete inputs. -/
theorem C7_amended_witness :
    call_completion (fun _ => .ok (500, .ok (Json.obj []))) (str "p") =
      .jstr (strERR (str "KeyError")) :=
  ((C7_amended.2 (fun _ => .ok (500, .ok (Json.obj []))) (str "p")).2.2.1)
    500 (Json.obj []) (str "KeyError") rfl rfl

/-- Claim C1 as stated: `generate_response` never raises, whatever the
scoring, completion, detection and translation backends do. -/
def ClaimC1 : Prop :=
  ∀ (score : ScoreFn) (post : PostFn) (detect translate : Str → Except Str Str)
    (docs : List Str) (q : Str), WFScore score →
    ∃ j, generate_response score post detect translate docs q = .ok j

/-- C1 counterexample: the `try` of `generate_response` wraps only the
completion call, so a scoring-backend exception raised while ranking (here
sklearn's `ValueError` on the empty chunk list) propagates out of
`generate_response` uncaught. -/
theorem C1_counterexample : ¬ ClaimC1 := by
  intro h
  obtain ⟨j, hj⟩ := h zeroScore (fun _ => .error (str "x"))
    (fun _ => .error (str "e")) (fun t => .ok t) [] (str "hello") wf_zeroScore
  rw [show generate_response zeroScore (fun _ => .error (str "x"))
      (fun _ => .error (str "e")) (fun t => .ok t) [] (str "hello") =
    .error (str "ValueError: Found array with 0 sample(s) while a minimum of 1 is required")
    from rfl] at hj
  exact Except.noConfusion hj

/-- C1 amended: translation and detection failures are swallowed inside
`translate_to_english` and every completion failure is caught and returned
as the answer value, but a ranking failure from the scoring backend
propagates out of `generate_response` as a raised exception. -/
theorem C1_amended :
    ∀ (score : ScoreFn) (post : PostFn)
      (detect translate : Str → Except Str Str) (docs : List Str) (q : Str),
    (∀ e, get_relevant_chunks_smart score
        (translate_to_english detect translate q) docs 3 = .error e →
      generate_response score post detect translate docs q = .error e) ∧
    (∀ chunks, get_relevant_chunks_smart score
        (translate_to_english detect translate q) docs 3 = .ok chunks →
      generate_response score post detect translate docs q =
        .ok (call_completion post (promptTemplate (pyJoin ['\n'] chunks)
          (translate_to_english detect translate q)))) := by
  intro score post detect translate docs q
  refine ⟨fun e h => ?_, fun chunks h => ?_⟩
  · simp [generate_response, h]
  · simp [generate_response, h]

/-- C1 amended witness at concrete inputs: the scoring failure on an empty
chunk set propagates. -/
theorem C1_amended_witness :
    generate_response zeroScore (fun _ => .error (str "x"))
        (fun _ => .error (str "e")) (fun t => .ok t) [] (str "hello") =
      .error (str "ValueError: Found array with 0 sample(s) while a minimum of 1 is required") :=
  (C1_amended zeroScore (fun _ => .error (str "x")) (fun _ => .error (str "e"))
    (fun t => .ok t) [] (str "hello")).1
    (str "ValueError: Found array with 0 sample(s) while a minimum of 1 is required") rfl

/-- Claim C6 as stated: on an empty chunk list both strategies return an
empty sequence without raising, for every well-formed scoring backend. -/
def ClaimC6 : Prop :=
  ∀ (score : ScoreFn), WFScore score → ∀ (q : Str) (k : Nat),
    get_relevant_chunks_tfidf score q [] k = .ok [] ∧
    get_relevant_chunks_smart score q [] k = .ok []

/-- C6 counterexample: neither ranking function guards the empty chunk
list before calling the scoring backend, and sklearn raises on a
zero-sample matrix, so `rank(query, [], k)` raises for both the sparse
strategy and (through its fallback) the hybrid one. -/
theorem C6_counterexample : ¬ ClaimC6 := by
  intro h
  have := (h zeroScore wf_zeroScore (str "q") 3).1
  rw [show get_relevant_chunks_tfidf zeroScore (str "q") [] 3 =
    .error (str "ValueError: Found array with 0 sample(s) while a minimum of 1 is required")
    from rfl] at this
  exact Except.noConfusion this

/-- C6 amended: on the empty chunk list both strategies simply propagate
the scoring backend's outcome — an exception raised by the backend (as
sklearn does) propagates to the caller, and only a backend that returns an
empty score vector without error makes both strategies return `[]`. -/
theorem C6_amended : ∀ (score : ScoreFn) (q : Str) (k : Nat),
    (∀ e, score q [] = .error e →
      get_relevant_chunks_tfidf score q [] k = .error e ∧
      get_relevant_chunks_smart score q [] k = .error e) ∧
    (∀ sims, score q [] = .ok sims → sims = [] →
      get_relevant_chunks_tfidf score q [] k = .ok [] ∧
      get_relevant_chunks_smart score q [] k = .ok []) := by
  intro score q k
  have hsmart : get_relevant_chunks_smart score q [] k =
      get_relevant_chunks_tfidf score q [] k := by
    simp [get_relevant_chunks_smart]
  refine ⟨fun e h => ?_, fun sims h hnil => ?_⟩
  · rw [hsmart, and_self]
    simp [get_relevant_chunks_tfidf, h]
  · subst hnil
    rw [hsmart, and_self]
    simp [get_relevant_chunks_tfidf, h, tfidf_top_k, pyTailSlice, argsortStable]

/-- C6 amended witness at concrete inputs. -/
theorem C6_amended_witness :
    get_relevant_chunks_tfidf zeroScore (str "q") [] 3 =
        .error (str "ValueError: Found array with 0 sample(s) while a minimum of 1 is required") ∧
      get_relevant_chunks_smart zeroScore (str "q") [] 3 =
        .error (str "ValueError: Found array with 0 sample(s) while a minimum of 1 is required") :=
  (C6_amended zeroScore (str "q") 3).1
    (str "ValueError: Found array with 0 sample(s) while a minimum of 1 is required") rfl

/-- Strict version of the argsort comparison: ascending score with
strictly ascending index tie-break. -/
def keyLt (sims : List ℚ) (i j : Nat) : Prop :=
  sVal sims i < sVal sims j ∨ (sVal sims i = sVal sims j ∧ i < j)

/-- Descending score order with ties resolved to the lower original index
first, as claim C2 states it. -/
def claimOrder (sims : List ℚ) (i j : Nat) : Prop :=
  sVal sims j < sVal sims i ∨ (sVal sims i = sVal sims j ∧ i < j)

/-- Descending score order with ties resolved to the higher original index
first, as the code produces. -/
def codeOrder (sims : List ℚ) (i j : Nat) : Prop :=
  sVal sims j < sVal sims i ∨ (sVal sims i = sVal sims j ∧ j < i)

/-- The modelled argsort is a permutation of the index range. -/
theorem argsortStable_perm (sims : List ℚ) :
    (argsortStable sims).Perm (List.range sims.length) :=
  List.perm_insertionSort _ _

/-- The modelled argsort has the length of the similarity vector. -/
theorem argsortStable_length (sims : List ℚ) :
    (argsortStable sims).length = sims.length := by
  rw [(argsortStable_perm sims).length_eq, List.length_range]

/-- The modelled argsort is sorted for the (non-strict) stable
comparison. -/
theorem argsortStable_sorted (sims : List ℚ) :
    (argsortStable sims).Pairwise (keyLe sims) := by
  haveI : IsTotal Nat (keyLe sims) := ⟨by
    intro i j
    rcases lt_trichotomy (sVal sims i) (sVal sims j) with h | h | h
    · exact Or.inl (Or.inl h)
    · rcases Nat.le_total i j with hij | hij
      · exact Or.inl (Or.inr ⟨h, hij⟩)
      · exact Or.inr (Or.inr ⟨h.symm, hij⟩)
    · exact Or.inr (Or.inl h)⟩
  haveI : IsTrans Nat (keyLe sims) := ⟨by
    intro a b c hab hbc
    rcases hab with h1 | ⟨e1, l1⟩
    · rcases hbc with h2 | ⟨e2, l2⟩
      · exact Or.inl (h1.trans h2)
      · exact Or.inl (by rw [← e2]; exact h1)
    · rcases hbc with h2 | ⟨e2, l2⟩
      · exact Or.inl (by rw [e1]; exact h2)
      · exact Or.inr ⟨e1.trans e2, l1.trans l2⟩⟩
  exact List.sorted_insertionSort _ _

/-- The modelled argsort has no duplicate indices. -/
theorem argsortStable_nodup (sims : List ℚ) : (argsortStable sims).Nodup :=
  (argsortStable_perm sims).nodup_iff.2 (List.nodup_range _)

/-- The modelled argsort is strictly sorted for the stable comparison. -/
theorem argsortStable_pairwise_lt (sims : List ℚ) :
    (argsortStable sims).Pairwise (keyLt sims) := by
  refine ((argsortStable_sorted sims).and (argsortStable_nodup sims)).imp ?_
  rintro a b ⟨hle, hne⟩
  rcases hle with h | ⟨heq, hle⟩
  · exact Or.inl h
  · exact Or.inr ⟨heq, lt_of_le_of_ne hle hne⟩

/-- The Python tail slice is a sublist. -/
theorem pyTailSlice_sublist {α : Type} (k : Nat) (l : List α) :
    (pyTailSlice k l).Sublist l := by
  unfold pyTailSlice
  split
  · exact List.Sublist.refl l
  · exact List.drop_sublist _ l

/-- Every index selected by the code is an index of the similarity
vector. -/
theorem tfidf_top_k_mem (sims : List ℚ) (k : Nat) (i : Nat)
    (h : i ∈ tfidf_top_k sims k) : i < sims.length := by
  unfold tfidf_top_k at h
  rw [List.mem_reverse] at h
  have h2 : i ∈ argsortStable sims := (pyTailSlice_sublist k _).subset h
  exact List.mem_range.1 ((argsortStable_perm sims).mem_iff.1 h2)

/-- For `k ≥ 1` the code selects `min k n` indices. -/
theorem tfidf_top_k_length (sims : List ℚ) (k : Nat) (hk : 1 ≤ k) :
    (tfidf_top_k sims k).length = min k sims.length := by
  unfold tfidf_top_k pyTailSlice
  rw [if_neg (by omega)]
  rw [List.length_reverse, List.length_drop, argsortStable_length]
  omega

/-- The selected indices are in descending score order, ties resolved to
the higher original index first. -/
theorem tfidf_top_k_pairwise (sims : List ℚ) (k : Nat) :
    (tfidf_top_k sims k).Pairwise (codeOrder sims) := by
  unfold tfidf_top_k
  rw [List.pairwise_reverse]
  have h : (pyTailSlice k (argsortStable sims)).Pairwise (keyLt sims) :=
    (argsortStable_pairwise_lt sims).sublist (pyTailSlice_sublist k _)
  refine h.imp ?_
  rintro a b (hlt | ⟨heq, hab⟩)
  · exact Or.inl hlt
  · exact Or.inr ⟨heq.symm, hab⟩

/-- Every selected index scores at least as high as every unselected
one. -/
theorem tfidf_top_k_topk (sims : List ℚ) (k : Nat) :
    ∀ i ∈ tfidf_top_k sims k, ∀ j, j < sims.length →
      j ∉ tfidf_top_k sims k → sVal sims j ≤ sVal sims i := by
  intro i hi j hj hnot
  have hjmem : j ∈ argsortStable sims :=
    (argsortStable_perm sims).mem_iff.2 (List.mem_range.2 hj)
  unfold tfidf_top_k at hi hnot
  rw [List.mem_reverse] at hi hnot
  by_cases hk : k = 0
  · subst hk
    exact absurd hjmem (by simpa [pyTailSlice] using hnot)
  · rw [show pyTailSlice k (argsortStable sims) =
        (argsortStable sims).drop ((argsortStable sims).length - k) by
      simp [pyTailSlice, hk]] at hi hnot
    have hsorted := argsortStable_sorted sims
    rw [← List.take_append_drop ((argsortStable sims).length - k)
      (argsortStable sims)] at hsorted hjmem
    obtain ⟨-, -, hcross⟩ := List.pairwise_append.1 hsorted
    rcases List.mem_append.1 hjmem with hjt | hjd
    · rcases hcross j hjt i hi with hlt | ⟨heq, -⟩
      · exact le_of_lt hlt
      · exact le_of_eq heq
    · exact absurd hjd hnot

/-- Claim C2 as stated: for every well-formed scoring backend, query,
chunk list and `k`, the sparse strategy returns the chunks selected by
`tfidf_top_k`, those are `min k n` top-scoring indices in descending score
order, and ties resolve to the lower original index first. -/
def ClaimC2 : Prop :=
  ∀ (score : ScoreFn), WFScore score →
  ∀ (q : Str) (docs : List Str) (k : Nat) (sims : List ℚ),
    score q docs = .ok sims →
    get_relevant_chunks_tfidf score q docs k =
      .ok ((tfidf_top_k sims k).map (fun i => docs.getD i [])) ∧
    (tfidf_top_k sims k).length = min k docs.length ∧
    (tfidf_top_k sims k).Pairwise (claimOrder sims) ∧
    (∀ i ∈ tfidf_top_k sims k, ∀ j, j < docs.length →
      j ∉ tfidf_top_k sims k → sVal sims j ≤ sVal sims i)

/-- C2 counterexample: two equal-scoring chunks come back in reversed
index order — `argsort` is ascending and the `[::-1]` reversal puts the
higher original index first — and with `k = 0` the Python slice `[-0:]`
selects every chunk instead of none. -/
theorem C2_counterexample :
    get_relevant_chunks_tfidf zeroScore (str "q") [str "aa", str "ab"] 2 =
        .ok [str "ab", str "aa"] ∧
      get_relevant_chunks_tfidf zeroScore (str "q") [str "aa", str "ab"] 0 =
        .ok [str "ab", str "aa"] ∧
      ¬ ClaimC2 := by
  refine ⟨by rfl, by rfl, fun h => ?_⟩
  have h2 := (h zeroScore wf_zeroScore (str "q") [str "aa", str "ab"] 2
    [0, 0] rfl).2.2.1
  rw [show tfidf_top_k [0, 0] 2 = [1, 0] by rfl] at h2
  have h3 := (List.pairwise_cons.1 h2).1 0 (by simp)
  rcases h3 with h4 | ⟨-, h4⟩
  · exact absurd h4 (by norm_num [sVal])
  · omega

/-- C2 amended: for every well-formed scoring backend and `k ≥ 1`, the
sparse strategy returns the `min k n` chunks with highest score in
descending score order, with ties resolved to the HIGHER original index
first (the stable ascending argsort is reversed by `[::-1]`). -/
theorem C2_amended :
    ∀ (score : ScoreFn), WFScore score →
    ∀ (q : Str) (docs : List Str) (k : Nat) (sims : List ℚ),
    score q docs = .ok sims → 1 ≤ k →
    get_relevant_chunks_tfidf score q docs k =
      .ok ((tfidf_top_k sims k).map (fun i => docs.getD i [])) ∧
    (tfidf_top_k sims k).length = min k docs.length ∧
    (∀ i ∈ tfidf_top_k sims k, i < docs.length) ∧
    (tfidf_top_k sims k).Pairwise (codeOrder sims) ∧
    (∀ i ∈ tfidf_top_k sims k, ∀ j, j < docs.length →
      j ∉ tfidf_top_k sims k → sVal sims j ≤ sVal sims i) := by
  intro score hwf q docs k sims hs hk
  have hlen : sims.length = docs.length := hwf q docs sims hs
  refine ⟨by simp [get_relevant_chunks_tfidf, hs], ?_, ?_,
    tfidf_top_k_pairwise sims k, ?_⟩
  · rw [tfidf_top_k_length sims k hk, hlen]
  · intro i hi
    rw [← hlen]
    exact tfidf_top_k_mem sims k i hi
  · intro i hi j hj hn
    rw [← hlen] at hj
    exact tfidf_top_k_topk sims k i hi j hj hn

/-- C2 amended witness at concrete inputs. -/
theorem C2_amended_witness :
    get_relevant_chunks_tfidf zeroScore (str "q") [str "aa"] 1 =
      .ok ((tfidf_top_k [0] 1).map (fun i => [str "aa"].getD i [])) ∧
    (tfidf_top_k [0] 1).length = min 1 [str "aa"].length ∧
    (∀ i ∈ tfidf_top_k [0] 1, i < [str "aa"].length) ∧
    (tfidf_top_k [0] 1).Pairwise (codeOrder [0]) ∧
    (∀ i ∈ tfidf_top_k [0] 1, ∀ j, j < [str "aa"].length →
      j ∉ tfidf_top_k [0] 1 → sVal [0] j ≤ sVal [0] i) :=
  C2_amended zeroScore wf_zeroScore (str "q") [str "aa"] 1 [0] rfl (by norm_num)

/-- A word, as produced by Python `str.split()`: nonempty and free of
whitespace. -/
def IsWord (w : Str) : Prop := w ≠ [] ∧ ∀ c ∈ w, c.isWhitespace = false

/-- Reading a whitespace-free block just extends the accumulator. -/
theorem pySplitAux_append_word :
    ∀ (w l acc : List Char), (∀ c ∈ w, c.isWhitespace = false) →
      pySplitAux (w ++ l) acc = pySplitAux l (w.reverse ++ acc) := by
  intro w
  induction w with
  | nil => intro l acc _; simp
  | cons c w ih =>
    intro l acc hw
    have hc : c.isWhitespace = false := hw c (by simp)
    have hw' : ∀ x ∈ w, x.isWhitespace = false := fun x hx => hw x (by simp [hx])
    simp only [List.cons_append, pySplitAux, hc, Bool.false_eq_true, if_false,
      List.append_eq]
    rw [ih l (c :: acc) hw']
    simp

/-- Every piece produced by the split is a word. -/
theorem pySplitAux_mem_isWord :
    ∀ (l acc : List Char), (∀ c ∈ acc, c.isWhitespace = false) →
      ∀ w ∈ pySplitAux l acc, IsWord w := by
  intro l
  induction l with
  | nil =>
    intro acc hacc w hw
    unfold pySplitAux at hw
    by_cases h : acc.isEmpty
    · simp [h] at hw
    · rw [if_neg h] at hw
      simp only [List.mem_singleton] at hw
      subst hw
      refine ⟨by simp [List.isEmpty_iff] at h; simp [h], fun c hc => ?_⟩
      exact hacc c (List.mem_reverse.1 hc)
  | cons c cs ih =>
    intro acc hacc w hw
    unfold pySplitAux at hw
    by_cases hc : c.isWhitespace
    · rw [if_pos hc] at hw
      by_cases h : acc.isEmpty
      · rw [if_pos h] at hw
        exact ih [] (by simp) w hw
      · rw [if_neg h] at hw
        rcases List.mem_cons.1 hw with rfl | hw2
        · refine ⟨by simp [List.isEmpty_iff] at h; simp [h], fun x hx => ?_⟩
          exact hacc x (List.mem_reverse.1 hx)
        · exact ih [] (by simp) w hw2
    · rw [if_neg hc] at hw
      refine ih (c :: acc) ?_ w hw
      intro x hx
      rcases List.mem_cons.1 hx with rfl | hx2
      · exact Bool.eq_false_iff.2 hc
      · exact hacc x hx2

/-- Every piece of `pySplit text` is a word. -/
theorem pySplit_mem_isWord (text : Str) : ∀ w ∈ pySplit text, IsWord w :=
  pySplitAux_mem_isWord text [] (by simp)

/-- Splitting a space-join of words recovers exactly the words. -/
theorem pySplit_join_words :
    ∀ (ws : List Str), (∀ w ∈ ws, IsWord w) → pySplit (pyJoin [' '] ws) = ws := by
  intro ws
  induction ws with
  | nil => intro _; rfl
  | cons w ws ih =>
    intro hws
    obtain ⟨hwne, hwchars⟩ := hws w (by simp)
    cases ws with
    | nil =>
      show pySplitAux (pyJoin [' '] [w]) [] = [w]
      have : pyJoin [' '] [w] = w ++ [] := by simp [pyJoin]
      rw [this, pySplitAux_append_word w [] [] hwchars]
      unfold pySplitAux
      rw [if_neg (by simp [List.isEmpty_iff, hwne])]
      simp
    | cons w2 ws2 =>
      have hrest : ∀ x ∈ w2 :: ws2, IsWord x := fun x hx => hws x (by simp [hx])
      show pySplitAux (pyJoin [' '] (w :: w2 :: ws2)) [] = w :: w2 :: ws2
      have hj : pyJoin [' '] (w :: w2 :: ws2) =
          w ++ (' ' :: pyJoin [' '] (w2 :: ws2)) := by
        show w ++ [' '] ++ pyJoin [' '] (w2 :: ws2) = _
        simp
      rw [hj, pySplitAux_append_word w _ [] hwchars]
      show pySplitAux (' ' :: pyJoin [' '] (w2 :: ws2)) (w.reverse ++ []) = _
      unfold pySplitAux
      rw [if_pos (by decide)]
      rw [if_neg (by simp [List.isEmpty_iff, hwne])]
      rw [show pySplitAux (pyJoin [' '] (w2 :: ws2)) [] = w2 :: ws2 from ih hrest]
      simp

/-- Joining a concatenation of nonempty piece lists splits at the
boundary. -/
theorem pyJoin_append_sep :
    ∀ (sep : Str) (l1 l2 : List Str), l1 ≠ [] → l2 ≠ [] →
      pyJoin sep (l1 ++ l2) = pyJoin sep l1 ++ sep ++ pyJoin sep l2 := by
  intro sep l1
  induction l1 with
  | nil => intro l2 h _; exact absurd rfl h
  | cons w l1 ih =>
    intro l2 _ hl2
    cases l1 with
    | nil =>
      cases l2 with
      | nil => exact absurd rfl hl2
      | cons x l2' => simp [pyJoin]
    | cons w2 l1' =>
      have := ih l2 (by simp) hl2
      show pyJoin sep (w :: (w2 :: l1') ++ l2) = _
      rw [show pyJoin sep (w :: (w2 :: l1') ++ l2) =
          w ++ sep ++ pyJoin sep ((w2 :: l1') ++ l2) from rfl]
      rw [this]
      show _ = pyJoin sep (w :: w2 :: l1') ++ sep ++ pyJoin sep l2
      rw [show pyJoin sep (w :: w2 :: l1') = w ++ sep ++ pyJoin sep (w2 :: l1')
        from rfl]
      simp [List.append_assoc]

/-- Space-joining already-joined windows equals space-joining the
flattened word list, provided every window is nonempty. -/
theorem pyJoin_map_flatten :
    ∀ (wss : List (List Str)), (∀ ws ∈ wss, ws ≠ []) →
      pyJoin [' '] (wss.map (pyJoin [' '])) = pyJoin [' '] wss.flatten := by
  intro wss
  induction wss with
  | nil => intro _; rfl
  | cons ws wss ih =>
    intro h
    have hws : ws ≠ [] := h ws (by simp)
    cases wss with
    | nil => simp [pyJoin]
    | cons ws2 rest =>
      have hrest : ∀ x ∈ ws2 :: rest, x ≠ [] := fun x hx => h x (by simp [hx])
      have hws2 : ws2 ≠ [] := hrest ws2 (by simp)
      have hflat : (ws2 :: rest).flatten ≠ [] := by
        simp only [List.flatten_cons]
        intro hc
        exact hws2 (List.append_eq_nil.1 hc).1
      show pyJoin [' '] (pyJoin [' '] ws :: (ws2 :: rest).map (pyJoin [' '])) = _
      rw [show pyJoin [' '] (pyJoin [' '] ws :: (ws2 :: rest).map (pyJoin [' '])) =
          pyJoin [' '] ws ++ [' '] ++
            pyJoin [' '] ((ws2 :: rest).map (pyJoin [' '])) from rfl]
      rw [ih hrest]
      rw [show (ws :: ws2 :: rest).flatten = ws ++ (ws2 :: rest).flatten from rfl]
      rw [pyJoin_append_sep [' '] ws (ws2 :: rest).flatten hws hflat]

/-- For nonnegative bounds the Python slice `l[i:i+c]` is drop-then-take. -/
theorem pySlice_toNat {α : Type} (l : List α) (i c : Nat) :
    pySlice l (i : Int) ((i : Int) + (c : Int)) = (l.drop i).take c := by
  unfold pySlice pyIdx
  rw [if_neg (by omega), if_neg (by omega)]
  rw [show ((i : Int) + (c : Int)).toNat = i + c by omega,
    show ((i : Int)).toNat = i by omega]
  rcases Nat.le_total i l.length with hi | hi
  · rw [min_eq_left hi]
    rcases Nat.le_total (i + c) l.length with hic | hic
    · rw [min_eq_left hic, ← List.take_drop]
    · rw [min_eq_right hic, List.take_length]
      rw [List.take_of_length_le (by rw [List.length_drop]; omega)]
  · rw [min_eq_right hi, min_eq_right (by omega), List.take_length]
    rw [List.drop_eq_nil_of_le hi, List.drop_eq_nil_of_le (by omega)]
    simp

/-- Shifting the start of an arithmetic range is mapping addition over
it. -/
theorem range'_add_map :
    ∀ (q a s step : Nat),
      List.range' (a + s) q step = (List.range' s q step).map (fun x => a + x) := by
  intro q
  induction q with
  | zero => intro a s step; rfl
  | succ q ih =>
    intro a s step
    rw [List.range'_succ, List.range'_succ, List.map_cons]
    rw [show a + s + step = a + (s + step) by omega, ih a (s + step) step]

/-- The windows starting at `0, n, 2n, ...` concatenate back to the whole
list once the range covers its length. -/
theorem flatten_windows {α : Type} :
    ∀ (q n : Nat) (l : List α), 0 < n → l.length ≤ q * n →
      ((List.range' 0 q n).map (fun i => (l.drop i).take n)).flatten = l := by
  intro q
  induction q with
  | zero =>
    intro n l _ hlen
    have h0 : (0 : Nat) * n = 0 := Nat.zero_mul n
    have hnil : l = [] := List.eq_nil_of_length_eq_zero (by omega)
    subst hnil
    rfl
  | succ q ih =>
    intro n l hn hlen
    have hmul : (q + 1) * n = q * n + n := by ring
    rw [List.range'_succ, List.map_cons, List.flatten_cons, List.drop_zero]
    rw [show 0 + n = n + 0 by omega, range'_add_map q n 0 n, List.map_map]
    have hmaps : ((List.range' 0 q n).map
          ((fun i => (l.drop i).take n) ∘ fun x => n + x)) =
        (List.range' 0 q n).map (fun i => ((l.drop n).drop i).take n) := by
      refine List.map_congr_left ?_
      intro a _
      simp only [Function.comp]
      rw [List.drop_drop]
    rw [hmaps, ih n (l.drop n) hn (by rw [List.length_drop]; omega)]
    exact List.take_append_drop n l

/-- Every start produced by `pyRangePos len n` is below `len`. -/
theorem pyRangePos_mem_lt (len n i : Nat) (hn : 0 < n)
    (h : i ∈ pyRangePos len n) : i < len := by
  unfold pyRangePos at h
  obtain ⟨t, ht, rfl⟩ := List.mem_range'.1 h
  have h2 : ((len + n - 1) / n) * n ≤ len + n - 1 := Nat.div_mul_le_self _ _
  have h3 : (t + 1) * n ≤ ((len + n - 1) / n) * n :=
    Nat.mul_le_mul_right n ht
  have h4 : (t + 1) * n = t * n + n := by ring
  have h5 : n * t = t * n := by ring
  omega

/-- The range `pyRangePos len n` covers the whole length. -/
theorem pyRangePos_covers (len n : Nat) (hn : 0 < n) :
    len ≤ ((len + n - 1) / n) * n := by
  have h1 : n * ((len + n - 1) / n) + (len + n - 1) % n = len + n - 1 :=
    Nat.div_add_mod _ _
  have h2 : (len + n - 1) % n < n := Nat.mod_lt _ hn
  have h3 : n * ((len + n - 1) / n) = ((len + n - 1) / n) * n := by ring
  omega

/-- Claim C5: for every text and `n ≥ 1`, `chunk_text text n 0` succeeds,
space-concatenating its chunks reconstructs exactly the whitespace-split
word sequence of the text, and every chunk has at most `n` words. -/
theorem C5_chunk_rejoin : ∀ (text : Str) (n : Int), 1 ≤ n →
    ∃ chunks, chunk_text text n 0 = .ok chunks ∧
      pySplit (pyJoin [' '] chunks) = pySplit text ∧
      ∀ c ∈ chunks, ((pySplit c).length : Int) ≤ n := by
  intro text n hn
  have hm1 : 1 ≤ n.toNat := by omega
  have hcast : ((n.toNat : Nat) : Int) = n := by omega
  have hsub : (n - 0 : Int) = n := by ring
  set words := pySplit text with hwords
  set windows : List (List Str) :=
    (pyRangePos words.length n.toNat).map
      (fun i => (words.drop i).take n.toNat) with hwindows
  have hwin_mem : ∀ ws ∈ windows, ∃ i ∈ pyRangePos words.length n.toNat,
      ws = (words.drop i).take n.toNat := by
    intro ws hws
    obtain ⟨i, hi, rfl⟩ := List.mem_map.1 hws
    exact ⟨i, hi, rfl⟩
  have hwin_words : ∀ ws ∈ windows, ∀ w ∈ ws, IsWord w := by
    intro ws hws w hw
    obtain ⟨i, -, rfl⟩ := hwin_mem ws hws
    exact pySplit_mem_isWord text w
      (List.mem_of_mem_drop (List.mem_of_mem_take hw))
  have hwin_ne : ∀ ws ∈ windows, ws ≠ [] := by
    intro ws hws
    obtain ⟨i, hi, rfl⟩ := hwin_mem ws hws
    have hilt : i < words.length := pyRangePos_mem_lt _ _ i (by omega) hi
    intro hc
    have : ((words.drop i).take n.toNat).length = 0 := by rw [hc]; rfl
    rw [List.length_take, List.length_drop] at this
    omega
  refine ⟨windows.map (pyJoin [' ']), ?_, ?_, ?_⟩
  · show chunk_text text n 0 = _
    unfold chunk_text
    rw [if_neg (by omega), if_neg (by omega)]
    rw [hsub]
    refine congrArg Except.ok ?_
    rw [hwindows, List.map_map]
    refine List.map_congr_left ?_
    intro i _
    simp only [Function.comp]
    rw [show (i : Int) + n = (i : Int) + (n.toNat : Int) by omega]
    rw [pySlice_toNat]
  · rw [pyJoin_map_flatten windows hwin_ne]
    rw [pySplit_join_words windows.flatten (by
      intro w hw
      obtain ⟨ws, hws, hw2⟩ := List.mem_flatten.1 hw
      exact hwin_words ws hws w hw2)]
    rw [hwindows]
    show ((List.range' 0 ((words.length + n.toNat - 1) / n.toNat) n.toNat).map
      (fun i => (words.drop i).take n.toNat)).flatten = words
    exact flatten_windows _ n.toNat words (by omega)
      (pyRangePos_covers words.length n.toNat (by omega))
  · intro c hc
    obtain ⟨ws, hws, rfl⟩ := List.mem_map.1 hc
    rw [pySplit_join_words ws (hwin_words ws hws)]
    obtain ⟨i, -, rfl⟩ := hwin_mem ws hws
    have := List.length_take_le n.toNat (words.drop i)
    omega

/-- C5 witness at concrete inputs. -/
theorem C5_chunk_rejoin_witness :
    (1 : Int) ≤ 2 ∧
      ∃ chunks, chunk_text (str "a b c") 2 0 = .ok chunks ∧
        pySplit (pyJoin [' '] chunks) = pySplit (str "a b c") ∧
        ∀ c ∈ chunks, ((pySplit c).length : Int) ≤ 2 :=
  ⟨by norm_num, C5_chunk_rejoin (str "a b c") 2 (by norm_num)⟩

end ChatbotApp
